import Mathlib

/-!
# Verification of the project-catalog store (`src/core/database.py`)

A shallow embedding of `DatabaseManager`: the SQLite `projects` table is a
list of rows, timestamps are naturals (each `datetime.now()` read passed
explicitly — `add_or_update_project` reads the clock twice), and the JSON
(de)serialization of the `tags` column is modelled by an executable
encoder for string lists and a decoder for a JSON fragment.
-/

namespace ProjectCatalog

/-! ## JSON serialization of tag lists

`json.dumps` applied to a list of strings produces
`["a", "b"]` (separator `", "`); `json.loads` in `get_project_by_uuid`
and friends is modelled by a parser for a JSON fragment (null, booleans,
integers, strings, nested arrays).  `json.loads` succeeds on any valid
JSON, list-shaped or not; only a parse failure reaches the callers'
`except json.JSONDecodeError` branch, which turns it into an empty tag
list. -/

/-- Escape the characters of a JSON string literal, as `json.dumps` does for
quote and backslash (control characters do not occur in normalized tags). -/
def escapeChars : List Char → List Char
  | [] => []
  | c :: cs => (if c = '"' ∨ c = '\\' then ['\\', c] else [c]) ++ escapeChars cs

/-- JSON string literal for `s`, with the surrounding quotes. -/
def jsonQuote (s : String) : String :=
  String.mk ('"' :: escapeChars s.data ++ ['"'])

/-- The elements after the first one, each preceded by Python's default
item separator `", "`, followed by the closing bracket. -/
def dumpsTail : List String → String
  | [] => "]"
  | s :: rest => ", " ++ jsonQuote s ++ dumpsTail rest

/-- Model of `json.dumps` on a list of strings: `["a", "b"]`, with Python's
default item separator `", "`. -/
def json_dumps_strlist : List String → String
  | [] => "[]"
  | s :: rest => "[" ++ jsonQuote s ++ dumpsTail rest

/-- Consume the characters of a JSON string literal up to the closing
quote; fails if the input ends first.  An escaped character (`\x`) is taken
literally (sufficient for the two escapes the encoder emits). -/
def parseTagChars : List Char → Option (List Char × List Char)
  | [] => none
  | c :: rest =>
    if c = '"' then some ([], rest)
    else if c = '\\' then
      match rest with
      | [] => none
      | c2 :: rest2 =>
        match parseTagChars rest2 with
        | some (s, r) => some (c2 :: s, r)
        | none => none
    else
      match parseTagChars rest with
      | some (s, r) => some (c :: s, r)
      | none => none


/-- A decoded JSON value, as `json.loads` returns it: `None`, booleans,
integers, strings, and (possibly nested) arrays.  This is the fragment of
JSON the decoder below models exactly; floats, objects, `\uXXXX` escapes
and leading-zero integers are outside it and are mapped to a decode
failure (no theorem below mentions such an input). -/
inductive Json where
  | null
  | bool (b : Bool)
  | int (n : Int)
  | str (s : String)
  | arr (l : List Json)
  deriving Repr

/-- Skip a run of spaces (the only inter-token whitespace `json.dumps`
emits and the decoder accepts). -/
def skipSpaces : List Char → List Char
  | ' ' :: r => skipSpaces r
  | cs => cs

/-- Split off a leading run of decimal digits. -/
def takeDigits : List Char → List Char × List Char
  | [] => ([], [])
  | c :: r =>
    if c.isDigit then
      let (ds, rest) := takeDigits r
      (c :: ds, rest)
    else ([], c :: r)

def digitsToNat (ds : List Char) : Nat :=
  ds.foldl (fun acc c => acc * 10 + (c.toNat - 48)) 0

mutual

/-- Parse one JSON value of the fragment above, returning it and the
remaining input.  `fuel` bounds the recursion; the caller passes the input
length, which suffices because every recursive step consumes at least one
character. -/
def parseJson : Nat → List Char → Option (Json × List Char)
  | 0, _ => none
  | fuel + 1, cs =>
    match cs with
    | 'n' :: 'u' :: 'l' :: 'l' :: r => some (.null, r)
    | 't' :: 'r' :: 'u' :: 'e' :: r => some (.bool true, r)
    | 'f' :: 'a' :: 'l' :: 's' :: 'e' :: r => some (.bool false, r)
    | '"' :: r =>
      match parseTagChars r with
      | some (s, r2) => some (.str (String.mk s), r2)
      | none => none
    | '[' :: r =>
      match skipSpaces r with
      | ']' :: r2 => some (.arr [], r2)
      | r2 =>
        match parseJson fuel r2 with
        | some (j, r3) =>
          match parseJsonTail fuel (skipSpaces r3) with
          | some (items, r4) => some (.arr (j :: items), r4)
          | none => none
        | none => none
    | '-' :: r =>
      match takeDigits r with
      | ([], _) => none
      | (ds, rest) => some (.int (-(digitsToNat ds : Int)), rest)
    | c :: r =>
      if c.isDigit then
        match takeDigits (c :: r) with
        | (ds, rest) => some (.int (digitsToNat ds), rest)
      else none
    | [] => none

/-- After a complete array element: the closing bracket, or a comma,
optional spaces, and the next element. -/
def parseJsonTail : Nat → List Char → Option (List Json × List Char)
  | 0, _ => none
  | fuel + 1, cs =>
    match cs with
    | ']' :: r => some ([], r)
    | ',' :: r =>
      match parseJson fuel (skipSpaces r) with
      | some (j, r2) =>
        match parseJsonTail fuel (skipSpaces r2) with
        | some (items, r3) => some (j :: items, r3)
        | none => none
      | none => none
    | _ => none

end

/-- Model of `json.loads` on the fragment above: parse one value and
require the input to be exhausted.  Inputs outside the fragment (floats,
objects, other escapes) are mapped to failure; every input a theorem in
this file mentions is inside the fragment, where the model agrees with
Python exactly. -/
def json_loads_pyval (s : String) : Option Json :=
  match parseJson ((skipSpaces s.data).length + 1) (skipSpaces s.data) with
  | some (j, r) => if (skipSpaces r).isEmpty then some j else none
  | none => none

/-- The decoded values Python would report as a list of strings. -/
def allStrings : List Json → Option (List String)
  | [] => some []
  | .str s :: t => (allStrings t).map (s :: ·)
  | _ => none

/-- A decoded JSON value that is an array of strings, as the list. -/
def stringArray? (j : Json) : Option (List String) :=
  match j with
  | .arr items => allStrings items
  | _ => none

/-! ### Round trip of the tag serialization -/

/-- A character that needs no JSON escaping.  Normalized tags (lowercase
alphanumeric) consist only of such characters. -/
def PlainChar (c : Char) : Prop := c ≠ '"' ∧ c ≠ '\\'

theorem escapeChars_of_plain : ∀ cs, (∀ c ∈ cs, PlainChar c) → escapeChars cs = cs := by
  intro cs h
  induction cs with
  | nil => rfl
  | cons c cs ih =>
    have hc := h c (List.mem_cons_self c cs)
    simp [escapeChars, hc.1, hc.2]
    exact ih fun x hx => h x (List.mem_cons_of_mem c hx)

theorem parseTagChars_append (cs : List Char) (r : List Char)
    (h : ∀ c ∈ cs, PlainChar c) :
    parseTagChars (cs ++ '"' :: r) = some (cs, r) := by
  induction cs with
  | nil => rw [parseTagChars.eq_def]; simp
  | cons c cs ih =>
    have hc := h c (List.mem_cons_self c cs)
    have ih2 := ih fun x hx => h x (List.mem_cons_of_mem c hx)
    rw [List.cons_append, parseTagChars.eq_def]
    simp [hc.1, hc.2, ih2]

theorem dumpsTail_length (l : List String) : l.length ≤ (dumpsTail l).data.length := by
  induction l with
  | nil => simp [dumpsTail]
  | cons s rest ih =>
    simp only [dumpsTail, String.data_append, List.length_append, List.length_cons]
    omega

theorem string_mk_data (s : String) : String.mk s.data = s := by
  cases s
  rfl

theorem parseJson_string (fuel : Nat) (r : List Char) :
    parseJson (fuel + 1) ('"' :: r) =
      match parseTagChars r with
      | some (s, r2) => some (Json.str (String.mk s), r2)
      | none => none := rfl

theorem parseJson_bracket_str (fuel : Nat) (x : List Char) :
    parseJson (fuel + 1) ('[' :: '"' :: x) =
      (match parseJson fuel ('"' :: x) with
      | some (j, r3) =>
        (match parseJsonTail fuel (skipSpaces r3) with
         | some (items, r4) => some (Json.arr (j :: items), r4)
         | none => none)
      | none => none) := rfl

theorem parseJsonTail_comma (fuel : Nat) (r : List Char) :
    parseJsonTail (fuel + 1) (',' :: r) =
      (match parseJson fuel (skipSpaces r) with
      | some (j, r2) =>
        (match parseJsonTail fuel (skipSpaces r2) with
         | some (items, r3) => some (j :: items, r3)
         | none => none)
      | none => none) := rfl

theorem skipSpaces_dumpsTail (rest : List String) :
    skipSpaces (dumpsTail rest).data = (dumpsTail rest).data := by
  cases rest with
  | nil => rfl
  | cons s t =>
    have hdata : (dumpsTail (s :: t)).data =
        ',' :: ' ' :: (jsonQuote s ++ dumpsTail t).data := by
      simp [dumpsTail, String.data_append]
    rw [hdata]
    rfl

theorem parseJsonTail_dumpsTail : ∀ (l : List String) (fuel : Nat),
    (∀ s ∈ l, ∀ c ∈ s.data, PlainChar c) → l.length + 1 ≤ fuel →
    parseJsonTail fuel (dumpsTail l).data = some (l.map Json.str, []) := by
  intro l
  induction l with
  | nil =>
    intro fuel _ hfuel
    obtain ⟨f, rfl⟩ : ∃ f, fuel = f + 1 := ⟨fuel - 1, by omega⟩
    rfl
  | cons s rest ih =>
    intro fuel h hfuel
    have hs := h s (List.mem_cons_self s rest)
    have hdata : (dumpsTail (s :: rest)).data =
        ',' :: ' ' :: '"' :: (s.data ++ '"' :: (dumpsTail rest).data) := by
      simp [dumpsTail, jsonQuote, escapeChars_of_plain s.data hs, String.data_append]
    obtain ⟨f2, rfl⟩ : ∃ f2, fuel = f2 + 2 := by
      refine ⟨fuel - 2, ?_⟩
      simp only [List.length_cons] at hfuel
      omega
    have hlen : rest.length + 1 ≤ f2 + 1 := by
      simp only [List.length_cons] at hfuel
      omega
    rw [hdata]
    rw [show f2 + 2 = (f2 + 1) + 1 from rfl, parseJsonTail_comma]
    rw [show skipSpaces (' ' :: '"' :: (s.data ++ '"' :: (dumpsTail rest).data)) =
      '"' :: (s.data ++ '"' :: (dumpsTail rest).data) from rfl]
    rw [show f2 + 1 = f2 + 1 from rfl, parseJson_string]
    simp only [parseTagChars_append s.data _ hs]
    rw [skipSpaces_dumpsTail rest,
      ih (f2 + 1) (fun x hx => h x (List.mem_cons_of_mem s hx)) hlen]
    simp [string_mk_data]

theorem json_loads_dumps (l : List String)
    (h : ∀ s ∈ l, ∀ c ∈ s.data, PlainChar c) :
    json_loads_pyval (json_dumps_strlist l) = some (Json.arr (l.map Json.str)) := by
  cases l with
  | nil => rfl
  | cons s rest =>
    have hs := h s (List.mem_cons_self s rest)
    have hdata : (json_dumps_strlist (s :: rest)).data =
        '[' :: '"' :: (s.data ++ '"' :: (dumpsTail rest).data) := by
      simp [json_dumps_strlist, jsonQuote, escapeChars_of_plain s.data hs, String.data_append]
    unfold json_loads_pyval
    rw [hdata]
    rw [show skipSpaces ('[' :: '"' :: (s.data ++ '"' :: (dumpsTail rest).data)) =
      '[' :: '"' :: (s.data ++ '"' :: (dumpsTail rest).data) from rfl]
    rw [show ('[' :: '"' :: (s.data ++ '"' :: (dumpsTail rest).data)).length + 1 =
      (((s.data ++ '"' :: (dumpsTail rest).data).length + 1) + 1) + 1 from by simp,
      parseJson_bracket_str, parseJson_string]
    simp only [parseTagChars_append s.data _ hs]
    rw [skipSpaces_dumpsTail rest]
    have hlen : rest.length + 1 ≤ (s.data ++ '"' :: (dumpsTail rest).data).length + 2 := by
      have := dumpsTail_length rest
      simp only [List.length_append, List.length_cons]
      omega
    rw [parseJsonTail_dumpsTail rest _
      (fun x hx => h x (List.mem_cons_of_mem s hx)) hlen]
    simp [string_mk_data, show skipSpaces ([] : List Char) = [] from rfl]

theorem allStrings_map_str (l : List String) :
    allStrings (l.map Json.str) = some l := by
  induction l with
  | nil => rfl
  | cons s t ih => simp [allStrings, ih]

/-! ## Data model

A row of the `projects` table (current, fully migrated schema: the base
columns of `create_tables` plus the v1/v2 migration columns).  `NOT NULL`
columns are plain fields; nullable columns are `Option`s.  Timestamps
(`datetime.now().isoformat()`) are modelled as naturals passed in by the
caller of each operation; a later call has a larger value exactly when the
clock advanced. -/

structure Row where
  uuid : String
  name : String
  root_path : String
  tags : Option String := none
  ai_app_name : Option String := none
  ai_app_description : Option String := none
  description : Option String := none
  notes : Option String := none
  favorite : Option Int := none
  last_opened : Option Nat := none
  open_count : Option Int := none
  date_added : Nat
  last_updated : Nat
  enabled : Option Int := none
  color_theme : Option String := none
  archived : Option Int := some 0
  archive_path : Option String := none
  archive_date : Option Nat := none
  archive_size_mb : Option Int := none
  deriving Repr, DecidableEq

/-- The value a caller's `project_data` dict holds under `'tags'`.
`absent` covers both a missing key and an explicit `None` (both store SQL
NULL and skip `json.dumps`, which only runs on a `list` value). -/
inductive TagsIn where
  | absent
  | str (s : String)
  | list (l : List String)
  deriving Repr, DecidableEq

/-- The `project_data` dict passed to `add_or_update_project`.
`uuid` is accessed unconditionally (`project_data['uuid']`), so it is a
plain field.  For `favorite` and `enabled` the outer `Option` is key
presence and the inner `Option Int` the (possibly `None`) value: the code
tests `'favorite' not in project_data`, and reads `enabled` with `.get`.
Keys whose payload value the function overwrites unconditionally
(`date_added`, `open_count`, `last_updated`) are omitted. -/
structure Payload where
  uuid : String
  name : Option String := none
  root_path : Option String := none
  tags : TagsIn := .absent
  ai_app_name : Option String := none
  ai_app_description : Option String := none
  description : Option String := none
  notes : Option String := none
  favorite : Option (Option Int) := none
  last_opened : Option Nat := none
  enabled : Option (Option Int) := none
  color_theme : Option String := none
  deriving Repr, DecidableEq

/-- The hydrated `tags` entry of a record handed back to callers.  The
readers reassign it only when the stored value is truthy
(`if project.get('tags'):`), so SQL NULL and the empty string pass through
unchanged (`.null` / `.str ""`); a decoded array of strings is `.list`,
and any other successfully decoded JSON value is `.jval` (a decoded JSON
`null` is `.jval .null` — the same Python `None` as `.null`, kept apart
only as an encoding of how it arose). -/
inductive TagsVal where
  | null
  | str (s : String)
  | list (l : List String)
  | jval (j : Json)
  deriving Repr

/-- A hydrated project record (the dict the readers return): the stored row
with `tags` decoded. -/
structure Project where
  uuid : String
  name : String
  root_path : String
  tags : TagsVal
  ai_app_name : Option String
  ai_app_description : Option String
  description : Option String
  notes : Option String
  favorite : Option Int
  last_opened : Option Nat
  open_count : Option Int
  date_added : Nat
  last_updated : Nat
  enabled : Option Int
  color_theme : Option String
  archived : Option Int
  archive_path : Option String
  archive_date : Option Nat
  archive_size_mb : Option Int
  deriving Repr

/-- The tag-decoding step shared by every reader:
`if project.get('tags'): try json.loads except JSONDecodeError: []`.
A successfully decoded value is kept whatever it is: `.list` encodes a
decoded array of strings, `.jval` any other decoded JSON value (e.g. a
stored `"123"` decodes to the integer 123); only a decode *failure* falls
to the `[]` branch. -/
def hydrateTags : Option String → TagsVal
  | none => .null
  | some s =>
    if s = "" then .str s
    else
      match json_loads_pyval s with
      | some j =>
        match stringArray? j with
        | some l => .list l
        | none => .jval j
      | none => .list []

/-- `dict(row)` plus tag decoding. -/
def hydrate (r : Row) : Project :=
  { uuid := r.uuid, name := r.name, root_path := r.root_path
    tags := hydrateTags r.tags
    ai_app_name := r.ai_app_name, ai_app_description := r.ai_app_description
    description := r.description, notes := r.notes
    favorite := r.favorite, last_opened := r.last_opened
    open_count := r.open_count
    date_added := r.date_added, last_updated := r.last_updated
    enabled := r.enabled, color_theme := r.color_theme
    archived := r.archived, archive_path := r.archive_path
    archive_date := r.archive_date, archive_size_mb := r.archive_size_mb }

/-! ## Sorting (`ORDER BY`)

An executable stable sort, used to model the `ORDER BY` clauses.  Only the
ordering key matters to the claims below, never the algorithm. -/

def insertBy (le : α → α → Bool) (a : α) : List α → List α
  | [] => [a]
  | x :: xs => if le a x then a :: x :: xs else x :: insertBy le a xs

def sortBy (le : α → α → Bool) : List α → List α
  | [] => []
  | x :: xs => insertBy le x (sortBy le xs)

theorem mem_insertBy (le : α → α → Bool) (a b : α) :
    ∀ l : List α, b ∈ insertBy le a l ↔ b = a ∨ b ∈ l := by
  intro l
  induction l with
  | nil => simp [insertBy]
  | cons x xs ih =>
    simp only [insertBy]
    split
    · simp
    · simp [ih]
      tauto

theorem mem_sortBy (le : α → α → Bool) (b : α) :
    ∀ l : List α, b ∈ sortBy le l ↔ b ∈ l := by
  intro l
  induction l with
  | nil => simp [sortBy]
  | cons x xs ih =>
    simp [sortBy, mem_insertBy, ih]

/-- `ORDER BY name COLLATE NOCASE` (SQLite `NOCASE` folds ASCII only, as
`Char.toLower` does). -/
def sortByNameNoCase (rows : List Row) : List Row :=
  sortBy (fun a b => a.name.toLower ≤ b.name.toLower) rows

/-! ## Catalog store operations (`DatabaseManager`) -/

/-- `SELECT * FROM projects WHERE uuid = ?` + `fetchone`, hydrated.
(`get_project_by_uuid` in the source.) -/
def get_project_by_uuid (db : List Row) (project_uuid : String) : Option Project :=
  (db.find? (fun r => r.uuid == project_uuid)).map hydrate

/-- `SELECT * FROM projects WHERE root_path = ?` + `fetchone`, hydrated.
(`get_project_by_path` in the source.) -/
def get_project_by_path (db : List Row) (root_path : String) : Option Project :=
  (db.find? (fun r => r.root_path == root_path)).map hydrate

/-- SQLite `INSERT OR REPLACE INTO projects (...)`: every row conflicting
with the new one on a uniqueness constraint — the `uuid` primary key or the
`root_path UNIQUE` column — is deleted, then the new row is inserted. -/
def insertOrReplaceProjects (db : List Row) (r : Row) : List Row :=
  db.filter (fun x => !(x.uuid == r.uuid) && !(x.root_path == r.root_path)) ++ [r]

/-- `'tags' in project_data and isinstance(project_data['tags'], list)`:
only a list value is serialized; a string value is stored as given and a
missing/None value stores NULL. -/
def serializeTagsIn : TagsIn → Option String
  | .absent => none
  | .str s => some s
  | .list l => some (json_dumps_strlist l)

/-- The row tuple `add_or_update_project` inserts, given the (non-NULL)
`name` and `root_path` payload values.  The function reads the clock
twice: `nowAdd` is the `datetime.now()` of the new-record branch (line
338, stored in `date_added` on first write) and `nowUpd` the later
`datetime.now()` always stored in `last_updated` (line 343) — two
distinct reads that need not be equal.  `date_added`/`open_count` are
carried from the existing record (else `nowAdd`/0), `favorite` comes from
the payload when its key is present, else is carried (else 0), and the
remaining `db_fields` are read from the payload (`.get`: absent key gives
NULL).  Columns outside `db_fields` — the v2 archive columns — take the
column defaults: `archived` 0, the rest NULL. -/
def upsertRow (db : List Row) (p : Payload) (name root_path : String)
    (nowAdd nowUpd : Nat) : Row :=
  let existing := get_project_by_uuid db p.uuid
  { uuid := p.uuid, name := name, root_path := root_path
    tags := serializeTagsIn p.tags
    ai_app_name := p.ai_app_name
    ai_app_description := p.ai_app_description
    description := p.description, notes := p.notes
    favorite :=
      match p.favorite with
      | some v => v
      | none =>
        match existing with
        | some e => e.favorite
        | none => some 0
    last_opened := p.last_opened
    open_count :=
      match existing with
      | some e => e.open_count
      | none => some 0
    date_added :=
      match existing with
      | some e => e.date_added
      | none => nowAdd
    last_updated := nowUpd
    enabled := p.enabled.getD none
    color_theme := p.color_theme
    archived := some 0, archive_path := none
    archive_date := none, archive_size_mb := none }

/-- `add_or_update_project(project_data)`: build the merged row (see
`upsertRow`) and `INSERT OR REPLACE` it, returning the uuid.  The insert
raises `DatabaseError` when a `NOT NULL` column — `name`, `root_path` —
would be NULL. -/
def add_or_update_project (db : List Row) (p : Payload) (nowAdd nowUpd : Nat) :
    Except String (List Row × String) :=
  match p.name, p.root_path with
  | some name, some root_path =>
    .ok (insertOrReplaceProjects db (upsertRow db p name root_path nowAdd nowUpd),
      p.uuid)
  | _, _ => .error "SQLite error: NOT NULL constraint failed"

/-- The table state left by `add_or_update_project`: the new table on
success, the old one when the statement raised (`DatabaseError` propagates
and the failed statement changes nothing). -/
def applyUpsert (db : List Row) (p : Payload) (nowAdd nowUpd : Nat) : List Row :=
  match add_or_update_project db p nowAdd nowUpd with
  | .ok (db2, _) => db2
  | .error _ => db

/-- `get_all_projects(enabled_only)`: `WHERE enabled = 1 AND archived = 0`
when `enabled_only`, everything otherwise, `ORDER BY name COLLATE NOCASE`,
hydrated. -/
def get_all_projects (db : List Row) (enabled_only : Bool := true) : List Project :=
  let rows :=
    if enabled_only then
      db.filter (fun r => r.enabled == some 1 && r.archived == some 0)
    else db
  (sortByNameNoCase rows).map hydrate

/-- `toggle_favorite(uuid)`: not-found returns `false` with no write;
otherwise flips `favorite` (anything other than 1 becomes 1), stamps
`last_updated`, and returns whether the new state is favorite. -/
def toggle_favorite (db : List Row) (project_uuid : String) (now : Nat) :
    List Row × Bool :=
  match get_project_by_uuid db project_uuid with
  | none => (db, false)
  | some project =>
    let new_favorite : Int := if project.favorite == some 1 then 0 else 1
    (db.map (fun r =>
        if r.uuid == project_uuid then
          { r with favorite := some new_favorite, last_updated := now }
        else r),
      new_favorite == 1)

/-- `update_notes(uuid, notes)`: unconditional `UPDATE ... WHERE uuid = ?`
(zero rows matched is not detected) and returns `True`. -/
def update_notes (db : List Row) (project_uuid : String) (notes : String)
    (now : Nat) : List Row × Bool :=
  (db.map (fun r =>
      if r.uuid == project_uuid then
        { r with notes := some notes, last_updated := now }
      else r),
    true)

/-- `record_project_open(uuid)`: `open_count = open_count + 1` (SQL: NULL
stays NULL), `last_opened`/`last_updated` = now, returns `True` even when
no row matches. -/
def record_project_open (db : List Row) (project_uuid : String) (now : Nat) :
    List Row × Bool :=
  (db.map (fun r =>
      if r.uuid == project_uuid then
        { r with last_opened := some now
                 open_count := r.open_count.map (· + 1)
                 last_updated := now }
      else r),
    true)

/-- `delete_project(uuid)` (soft delete): `SET enabled = 0`, stamp
`last_updated`, returns `True` even when no row matches. -/
def delete_project (db : List Row) (project_uuid : String) (now : Nat) :
    List Row × Bool :=
  (db.map (fun r =>
      if r.uuid == project_uuid then
        { r with enabled := some 0, last_updated := now }
      else r),
    true)

/-- `hard_delete_project(uuid)`: `DELETE FROM projects WHERE uuid = ?`. -/
def hard_delete_project (db : List Row) (project_uuid : String) :
    List Row × Bool :=
  (db.filter (fun r => !(r.uuid == project_uuid)), true)

/-- `archive_project(uuid, archive_path, archive_size_mb)`. -/
def archive_project (db : List Row) (project_uuid : String)
    (archive_path : String) (archive_size_mb : Int) (now : Nat) :
    List Row × Bool :=
  (db.map (fun r =>
      if r.uuid == project_uuid then
        { r with archived := some 1
                 archive_path := some archive_path
                 archive_date := some now
                 archive_size_mb := some archive_size_mb
                 last_updated := now }
      else r),
    true)

/-- `ORDER BY archive_date DESC` (SQL NULLs sort last under `DESC`). -/
def sortByArchiveDateDesc (rows : List Row) : List Row :=
  sortBy (fun a b =>
    (match a.archive_date with | some n => n + 1 | none => 0) ≥
    (match b.archive_date with | some n => n + 1 | none => 0)) rows

/-- `get_archived_projects()`: `WHERE archived = 1 ORDER BY archive_date
DESC`, hydrated. -/
def get_archived_projects (db : List Row) : List Project :=
  (sortByArchiveDateDesc (db.filter (fun r => r.archived == some 1))).map hydrate

/-! ## Search (`search_projects`) -/

/-- `needle` begins `hay`. -/
def leadsWith : List Char → List Char → Bool
  | [], _ => true
  | _ :: _, [] => false
  | a :: as, b :: bs => a == b && leadsWith as bs

/-- `needle` occurs contiguously in `hay`. -/
def occursIn (needle hay : List Char) : Bool :=
  match hay with
  | [] => needle.isEmpty
  | _ :: t => leadsWith needle hay || occursIn needle t

/-- SQLite `LIKE` pattern matching: `%` matches any character sequence,
`_` any single character, anything else itself (there is no default
escape character).  `fuel` bounds the recursion; every step shortens the
pattern or the text, so their combined length suffices. -/
def likeMatch : Nat → List Char → List Char → Bool
  | 0, _, _ => false
  | fuel + 1, ps, t =>
    match ps with
    | [] => t.isEmpty
    | '%' :: ps2 =>
      likeMatch fuel ps2 t ||
        (match t with
         | [] => false
         | _ :: t2 => likeMatch fuel ('%' :: ps2) t2)
    | '_' :: ps2 =>
      (match t with
       | [] => false
       | _ :: t2 => likeMatch fuel ps2 t2)
    | c :: ps2 =>
      (match t with
       | [] => false
       | c2 :: t2 => c == c2 && likeMatch fuel ps2 t2)

/-- `column LIKE ?` with the bound pattern `f"%{query}%"`: the query is
interpolated into the pattern, so `%`/`_` inside it act as SQLite
wildcards.  SQLite `LIKE` is ASCII-case-insensitive (both sides folded).
A NULL column never matches (the SQL comparison yields NULL). -/
def likeContains (col : Option String) (query : String) : Bool :=
  match col with
  | none => false
  | some s =>
    likeMatch (("%" ++ query ++ "%").length + s.length + 1)
      ("%" ++ query ++ "%").toLower.data s.toLower.data

/-- Python's `tag in project['tags']` on a hydrated tags value: list
membership on a decoded list, substring on a string that was left
undecoded.  (On `None` — NULL stored tags — the source raises `TypeError`;
no operation modelled here is called with both a non-empty tag filter and
such a row, and this model returns no-match.) -/
def tagAnyMatch (tv : TagsVal) (tags : List String) : Bool :=
  tags.any (fun tag =>
    match tv with
    | .list l => l.contains tag
    | .str s => occursIn tag.data s.data
    | .jval (.arr items) => items.any (fun it =>
        match it with
        | .str s2 => tag == s2
        | _ => false)
    | .jval _ => false
    | .null => false)

/-- `search_projects(query, tags, favorites_only)`.  `cols` is the live
column set of the `projects` table (`PRAGMA table_info(projects)`), probed
for the optional `notes`/`description` columns before building the LIKE
disjunction, and for `favorite` before adding the favorites predicate —
with an empty result, not an error, when `favorite` is absent.  Rows pass
`enabled = 1` plus the built conditions, are ordered by name
case-insensitively, hydrated, and then filtered in memory by the tag
list. -/
def search_projects (cols : List String) (db : List Row) (query : String := "")
    (tags : List String := []) (favorites_only : Bool := false) : List Project :=
  let has_notes := cols.contains "notes"
  let has_description := cols.contains "description"
  let queryCond : Row → Bool := fun r =>
    if query == "" then true
    else
      likeContains (some r.name) query || likeContains (some r.root_path) query
        || (has_description && likeContains r.description query)
        || (has_notes && likeContains r.notes query)
  if favorites_only && !(cols.contains "favorite") then []
  else
    let favCond : Row → Bool := fun r => !favorites_only || r.favorite == some 1
    let rows := db.filter (fun r => r.enabled == some 1 && queryCond r && favCond r)
    ((sortByNameNoCase rows).map hydrate).filter (fun p =>
      tags.isEmpty || tagAnyMatch p.tags tags)

/-! ## Whitelisted partial update (`update_project_fields`) -/

/-- A value passed as a keyword argument to `update_project_fields`:
`json.dumps(value) if isinstance(value, list) else value`. -/
inductive FieldVal where
  | str (s : String)
  | list (l : List String)
  | null
  deriving Repr, DecidableEq

def serializeFieldVal : FieldVal → Option String
  | .str s => some s
  | .list l => some (json_dumps_strlist l)
  | .null => none

def allowed_fields : List String := ["ai_app_name", "description", "tags"]

/-- Apply one `field = ?` assignment of the generated UPDATE. -/
def applyFieldUpdate (r : Row) (f : String) (v : Option String) : Row :=
  if f == "ai_app_name" then { r with ai_app_name := v }
  else if f == "description" then { r with description := v }
  else if f == "tags" then { r with tags := v }
  else r

/-- The sequence of `field = ?` assignments of the generated UPDATE,
applied in order. -/
def applyUpdates (updates : List (String × Option String)) (r : Row) : Row :=
  updates.foldl (fun acc fv => applyFieldUpdate acc fv.1 fv.2) r

/-- `update_project_fields(uuid, **fields)`: raises a not-found
`DatabaseError` when the uuid has no record; keeps only whitelisted
fields; returns `False` with no write when none survive; otherwise applies
them plus `last_updated = now` to the matching row and returns `True`.
`fields` is the kwargs dict in insertion order (keys are distinct). -/
def update_project_fields (db : List Row) (project_uuid : String)
    (fields : List (String × FieldVal)) (now : Nat) :
    Except String (List Row × Bool) :=
  match get_project_by_uuid db project_uuid with
  | none => .error ("Project with UUID " ++ project_uuid ++ " not found")
  | some _ =>
    let updates := (fields.filter (fun fv => allowed_fields.contains fv.1)).map
      (fun fv => (fv.1, serializeFieldVal fv.2))
    if updates.isEmpty then .ok (db, false)
    else
      .ok (db.map (fun r =>
          if r.uuid == project_uuid then
            { applyUpdates updates r with last_updated := now }
          else r),
        true)

/-! ## Schema migrator (`_migrate_schema`) -/

def SCHEMA_VERSION : Nat := 2

/-- The on-disk schema facts the migrator reads and writes: whether the
`projects` table exists, its column set (`PRAGMA table_info(projects)`,
in order), and the recorded schema version (0 when the `schema_version`
table is missing or empty). -/
structure SchemaState where
  projectsTableLive : Bool
  cols : List String
  version : Nat
  deriving Repr, DecidableEq

def required_columns_v1 : List String :=
  ["description", "notes", "favorite", "last_opened", "open_count", "color_theme"]

def required_columns_v2 : List String :=
  ["archived", "archive_path", "archive_date", "archive_size_mb"]

/-- `ALTER TABLE projects ADD COLUMN c ...` for each required column not
already present (the in-loop `if column_name not in existing_columns`
guard). -/
def addMissingColumns (cols : List String) (req : List String) : List String :=
  req.foldl (fun cs c => if cs.contains c then cs else cs ++ [c]) cols

/-- `_migrate_schema()`: a no-op when the `projects` table does not exist
or the recorded version is already current; otherwise adds the v1 columns
(below version 1), refreshes the column list, adds the v2 columns (below
version 2), and records `SCHEMA_VERSION`.  All internal SQLite errors are
caught and logged, so the function is total and `connect()` never sees a
migration error. -/
def migrate_schema (s : SchemaState) : SchemaState :=
  if !s.projectsTableLive then s
  else if SCHEMA_VERSION ≤ s.version then s
  else
    let cols1 := if s.version < 1 then addMissingColumns s.cols required_columns_v1 else s.cols
    let cols2 := if s.version < 2 then addMissingColumns cols1 required_columns_v2 else cols1
    { s with cols := cols2, version := SCHEMA_VERSION }

/-! ## Sequences of public operations -/

/-- One call to a public mutating operation of `DatabaseManager`, with the
clock value at the call. -/
inductive Op where
  | upsert (p : Payload) (nowAdd nowUpd : Nat)
  | toggleFav (u : String) (now : Nat)
  | setNotes (u : String) (s : String) (now : Nat)
  | setFields (u : String) (fs : List (String × FieldVal)) (now : Nat)
  | reopen (u : String) (now : Nat)
  | softDelete (u : String) (now : Nat)
  | hardDelete (u : String)
  | doArchive (u : String) (path : String) (size : Int) (now : Nat)
  deriving Repr

/-- The `projects` table after the call (unchanged when the call raised). -/
def stepOp (db : List Row) : Op → List Row
  | .upsert p nowAdd nowUpd => applyUpsert db p nowAdd nowUpd
  | .toggleFav u now => (toggle_favorite db u now).1
  | .setNotes u s now => (update_notes db u s now).1
  | .setFields u fs now =>
    match update_project_fields db u fs now with
    | .ok (db2, _) => db2
    | .error _ => db
  | .reopen u now => (record_project_open db u now).1
  | .softDelete u now => (delete_project db u now).1
  | .hardDelete u => (hard_delete_project db u).1
  | .doArchive u path size now => (archive_project db u path size now).1

def runOps (db : List Row) (ops : List Op) : List Row := ops.foldl stepOp db

/-! ## General lemmas about the operations -/

theorem find_insertOrReplace (db : List Row) (r : Row) :
    (insertOrReplaceProjects db r).find? (fun x => x.uuid == r.uuid) = some r := by
  have hnone : (db.filter
      (fun x => !(x.uuid == r.uuid) && !(x.root_path == r.root_path))).find?
      (fun x => x.uuid == r.uuid) = none := by
    rw [List.find?_eq_none]
    intro x hx
    have := (List.mem_filter.mp hx).2
    simp only [Bool.and_eq_true, Bool.not_eq_true'] at this
    simp [this.1]
  simp [insertOrReplaceProjects, List.find?_append, hnone]

theorem applyUpsert_eq (db : List Row) (p : Payload) (nowAdd nowUpd : Nat)
    (nm rp : String) (hn : p.name = some nm) (hr : p.root_path = some rp) :
    applyUpsert db p nowAdd nowUpd =
      insertOrReplaceProjects db (upsertRow db p nm rp nowAdd nowUpd) := by
  simp [applyUpsert, add_or_update_project, hn, hr]

theorem get_after_upsert (db : List Row) (p : Payload) (nowAdd nowUpd : Nat)
    (nm rp : String) (hn : p.name = some nm) (hr : p.root_path = some rp) :
    get_project_by_uuid (applyUpsert db p nowAdd nowUpd) p.uuid =
      some (hydrate (upsertRow db p nm rp nowAdd nowUpd)) := by
  rw [applyUpsert_eq db p nowAdd nowUpd nm rp hn hr]
  unfold get_project_by_uuid
  have : (fun r : Row => r.uuid == p.uuid) =
      (fun r : Row => r.uuid == (upsertRow db p nm rp nowAdd nowUpd).uuid) := rfl
  rw [this, find_insertOrReplace]
  rfl

theorem json_dumps_data_head (l : List String) :
    ∃ cs, (json_dumps_strlist l).data = '[' :: cs := by
  cases l with
  | nil => exact ⟨[']'], rfl⟩
  | cons s rest =>
    refine ⟨('"' :: escapeChars s.data ++ ['"']) ++ (dumpsTail rest).data, ?_⟩
    simp [json_dumps_strlist, jsonQuote, String.data_append]

theorem json_dumps_ne_empty (l : List String) : json_dumps_strlist l ≠ "" := by
  intro heq
  obtain ⟨cs, hcs⟩ := json_dumps_data_head l
  rw [heq] at hcs
  exact absurd hcs (by simp)

theorem plain_of_alphanum {c : Char} (h : c.isAlphanum = true) : PlainChar c := by
  constructor
  · rintro rfl; exact absurd h (by decide)
  · rintro rfl; exact absurd h (by decide)

/-- Serializing a list of escape-free tags and decoding it on read
recovers the list. -/
theorem hydrateTags_dumps (l : List String)
    (h : ∀ s ∈ l, ∀ c ∈ s.data, PlainChar c) :
    hydrateTags (some (json_dumps_strlist l)) = .list l := by
  simp [hydrateTags, json_dumps_ne_empty l, json_loads_dumps l h,
    stringArray?, allStrings_map_str l]

/-! ## The claims -/

/-- C4 counterexample: the source reads `datetime.now()` twice in one
upsert — line 338 for `date_added`, line 343 for `last_updated` — and
`isoformat()` carries microseconds, so the two stored first-write
timestamps can differ.  With the two reads 0 and 1, the scenario record
comes back with `date_added ≠ last_updated`, refuting the claimed
first-write equality. -/
theorem first_write_timestamps_can_differ :
    (get_project_by_uuid (applyUpsert []
        { uuid := "u1", name := some "demo", root_path := some "/p/demo",
          tags := TagsIn.list ["api", "cli"] } 0 1) "u1").map
      (fun prj => (prj.date_added, prj.last_updated)) = some (0, 1) ∧
    (get_project_by_uuid (applyUpsert []
        { uuid := "u1", name := some "demo", root_path := some "/p/demo",
          tags := TagsIn.list ["api", "cli"] } 0 1) "u1").map
      (fun prj => decide (prj.date_added = prj.last_updated)) = some false :=
  ⟨rfl, rfl⟩

/-- C4 (amended): on a fresh store, the scenario upsert followed by
`get_project_by_uuid("u1")` returns a record with `tags == ["api","cli"]`
and `favorite == false` (0); `date_added` holds the call's first
`datetime.now()` read and `last_updated` its second, so the two are equal
exactly when those reads coincide — the program does not guarantee the
claimed equality outright. -/
theorem upsert_scenario_get_by_uuid (ta tb : Nat) :
    ∃ prj, get_project_by_uuid (applyUpsert []
        { uuid := "u1", name := some "demo", root_path := some "/p/demo",
          tags := TagsIn.list ["api", "cli"] } ta tb) "u1" = some prj ∧
      prj.tags = TagsVal.list ["api", "cli"] ∧ prj.favorite = some 0 ∧
      prj.date_added = ta ∧ prj.last_updated = tb ∧
      (ta = tb → prj.date_added = prj.last_updated) :=
  ⟨_, rfl, rfl, rfl, rfl, rfl, fun h => by subst h; rfl⟩

/-- Witness for the amended C4 with coinciding clock reads. -/
theorem upsert_scenario_get_by_uuid_witness :
    ∃ prj, get_project_by_uuid (applyUpsert []
        { uuid := "u1", name := some "demo", root_path := some "/p/demo",
          tags := TagsIn.list ["api", "cli"] } 7 7) "u1" = some prj ∧
      prj.tags = TagsVal.list ["api", "cli"] ∧ prj.favorite = some 0 ∧
      prj.date_added = 7 ∧ prj.last_updated = 7 ∧
      (7 = 7 → prj.date_added = prj.last_updated) :=
  upsert_scenario_get_by_uuid 7 7

/-- C7: for any list of normalized (alphanumeric) tag strings,
`add_or_update_project` with that list as the `tags` value followed by
`get_project_by_uuid` returns exactly that list, in the same order, with
no duplicates introduced. -/
theorem tags_round_trip (db : List Row) (p : Payload) (l : List String)
    (ta tb : Nat) (nm rp : String)
    (hn : p.name = some nm) (hr : p.root_path = some rp)
    (ht : p.tags = TagsIn.list l)
    (hnorm : ∀ s ∈ l, ∀ c ∈ s.data, c.isAlphanum = true) :
    (get_project_by_uuid (applyUpsert db p ta tb) p.uuid).map Project.tags =
      some (TagsVal.list l) := by
  rw [get_after_upsert db p ta tb nm rp hn hr]
  simp only [Option.map_some', Option.some.injEq]
  have h1 : (hydrate (upsertRow db p nm rp ta tb)).tags =
      hydrateTags (serializeTagsIn p.tags) := rfl
  rw [h1, ht]
  exact hydrateTags_dumps l (fun s hs c hc => plain_of_alphanum (hnorm s hs c hc))

/-- Witness for C7 at a concrete payload. -/
theorem tags_round_trip_witness :
    (get_project_by_uuid (applyUpsert []
        { uuid := "u9", name := some "w", root_path := some "/w",
          tags := TagsIn.list ["web", "x1"] } 3 4) "u9").map Project.tags =
      some (TagsVal.list ["web", "x1"]) :=
  tags_round_trip [] _ ["web", "x1"] 3 4 "w" "/w" rfl rfl rfl (by decide)

/-- C2: after creating a record and then upserting the same uuid again,
`date_added` keeps its first-write value (the first call's line-338
clock read), `open_count` is carried forward, `favorite` is carried
forward unless the second payload has a `favorite` key, and
`last_updated` is the second call's line-343 stamp — strictly increasing
across the two calls, and strictly above `date_added`, when the clock
advances between the calls (the within-call read order giving
`ta1 ≤ tb1`). -/
theorem upsert_update_carries_forward (db0 : List Row) (p1 p2 : Payload)
    (ta1 tb1 ta2 tb2 : Nat) (nm1 rp1 nm2 rp2 : String)
    (hu : p2.uuid = p1.uuid)
    (hfresh : get_project_by_uuid db0 p1.uuid = none)
    (hn1 : p1.name = some nm1) (hr1 : p1.root_path = some rp1)
    (hn2 : p2.name = some nm2) (hr2 : p2.root_path = some rp2)
    (hmono : ta1 ≤ tb1) (hadv : tb1 < tb2) :
    ∃ r1 prj,
      get_project_by_uuid (applyUpsert db0 p1 ta1 tb1) p1.uuid = some r1 ∧
      get_project_by_uuid
        (applyUpsert (applyUpsert db0 p1 ta1 tb1) p2 ta2 tb2) p2.uuid
        = some prj ∧
      r1.date_added = ta1 ∧
      r1.last_updated = tb1 ∧
      prj.date_added = r1.date_added ∧
      prj.open_count = r1.open_count ∧
      (p2.favorite = none → prj.favorite = r1.favorite) ∧
      (∀ v, p2.favorite = some v → prj.favorite = v) ∧
      prj.last_updated = tb2 ∧
      r1.last_updated < prj.last_updated ∧
      prj.date_added < prj.last_updated := by
  have h1 := get_after_upsert db0 p1 ta1 tb1 nm1 rp1 hn1 hr1
  have h2 := get_after_upsert (applyUpsert db0 p1 ta1 tb1) p2 ta2 tb2 nm2 rp2 hn2 hr2
  have e2 : get_project_by_uuid (applyUpsert db0 p1 ta1 tb1) p2.uuid =
      some (hydrate (upsertRow db0 p1 nm1 rp1 ta1 tb1)) := by rw [hu]; exact h1
  have hd1 : (hydrate (upsertRow db0 p1 nm1 rp1 ta1 tb1)).date_added = ta1 := by
    simp only [hydrate, upsertRow]
    rw [hfresh]
  have hx : (hydrate (upsertRow (applyUpsert db0 p1 ta1 tb1) p2 nm2 rp2
      ta2 tb2)).date_added = ta1 := by
    simp only [hydrate, upsertRow]
    rw [e2]
    exact hd1
  refine ⟨hydrate (upsertRow db0 p1 nm1 rp1 ta1 tb1),
    hydrate (upsertRow (applyUpsert db0 p1 ta1 tb1) p2 nm2 rp2 ta2 tb2),
    h1, h2, hd1, rfl, ?_, ?_, ?_, ?_, rfl, hadv, ?_⟩
  · simp [hydrate, upsertRow, e2]
  · simp [hydrate, upsertRow, e2]
  · intro hfav
    simp [hydrate, upsertRow, e2, hfav]
  · intro v hfav
    simp [hydrate, upsertRow, hfav]
  · rw [hx]
    exact lt_of_le_of_lt hmono hadv

/-- A concrete create payload. -/
def createPayloadW : Payload :=
  { uuid := "u1", name := some "a", root_path := some "/a" }

/-- A concrete update payload for the same uuid, with a `favorite` key. -/
def updatePayloadW : Payload :=
  { uuid := "u1", name := some "b", root_path := some "/a",
    favorite := some (some 1) }

/-- Witness for C2 at concrete payloads and clock values. -/
theorem upsert_update_carries_forward_witness :
    ∃ r1 prj,
      get_project_by_uuid (applyUpsert [] createPayloadW 1 2) "u1" = some r1 ∧
      get_project_by_uuid
        (applyUpsert (applyUpsert [] createPayloadW 1 2) updatePayloadW 3 4) "u1"
        = some prj ∧
      r1.date_added = 1 ∧
      r1.last_updated = 2 ∧
      prj.date_added = r1.date_added ∧
      prj.open_count = r1.open_count ∧
      (updatePayloadW.favorite = none → prj.favorite = r1.favorite) ∧
      (∀ v, updatePayloadW.favorite = some v → prj.favorite = v) ∧
      prj.last_updated = 4 ∧
      r1.last_updated < prj.last_updated ∧
      prj.date_added < prj.last_updated :=
  upsert_update_carries_forward [] createPayloadW updatePayloadW
    1 2 3 4 "a" "/a" "b" "/a" rfl rfl rfl rfl rfl rfl (by decide) (by decide)

/-! ### Path uniqueness -/

/-- No two persisted rows share a `root_path`. -/
def PathsUnique (db : List Row) : Prop :=
  db.Pairwise (fun a b => a.root_path ≠ b.root_path)

/-- The table after a sequence of `add_or_update_project` calls on a fresh
store (each call carrying its two clock reads). -/
def upsertAll (ops : List (Payload × Nat × Nat)) : List Row :=
  ops.foldl (fun db op => applyUpsert db op.1 op.2.1 op.2.2) []

theorem pathsUnique_insertOrReplace (db : List Row) (r : Row)
    (h : PathsUnique db) : PathsUnique (insertOrReplaceProjects db r) := by
  unfold PathsUnique insertOrReplaceProjects
  rw [List.pairwise_append]
  refine ⟨h.sublist (List.filter_sublist db), List.pairwise_singleton _ _, ?_⟩
  intro a ha b hb
  simp only [List.mem_singleton] at hb
  subst hb
  have hm := (List.mem_filter.mp ha).2
  simp only [Bool.and_eq_true, Bool.not_eq_true', beq_eq_false_iff_ne] at hm
  exact hm.2

theorem pathsUnique_applyUpsert (db : List Row) (p : Payload)
    (nowAdd nowUpd : Nat) (h : PathsUnique db) :
    PathsUnique (applyUpsert db p nowAdd nowUpd) := by
  cases hn : p.name with
  | none =>
    simp only [applyUpsert, add_or_update_project, hn]
    exact h
  | some nm =>
    cases hr : p.root_path with
    | none =>
      simp only [applyUpsert, add_or_update_project, hn, hr]
      exact h
    | some rp =>
      rw [applyUpsert_eq db p nowAdd nowUpd nm rp hn hr]
      exact pathsUnique_insertOrReplace db _ h

theorem pathsUnique_foldl : ∀ (ops : List (Payload × Nat × Nat)) (db : List Row),
    PathsUnique db →
    PathsUnique (ops.foldl (fun db op => applyUpsert db op.1 op.2.1 op.2.2) db) := by
  intro ops
  induction ops with
  | nil => intro db h; exact h
  | cons op ops ih =>
    intro db h
    exact ih _ (pathsUnique_applyUpsert db op.1 op.2.1 op.2.2 h)

theorem count_path_le_one (db : List Row) (h : PathsUnique db)
    (path : String) :
    (db.filter (fun r => r.root_path == path)).length ≤ 1 := by
  induction db with
  | nil => simp
  | cons x xs ih =>
    have hx := List.pairwise_cons.mp h
    by_cases hxp : x.root_path = path
    · have hnil : xs.filter (fun r => r.root_path == path) = [] := by
        rw [List.filter_eq_nil_iff]
        intro a ha
        have := hx.1 a ha
        rw [hxp] at this
        simp [Ne.symm this]
      simp [List.filter_cons, hxp, hnil]
    · simp only [List.filter_cons, beq_iff_eq, hxp, if_false]
      exact ih hx.2

theorem find_by_path_of_pathsUnique (db : List Row) (h : PathsUnique db)
    (r : Row) (hr : r ∈ db) (path : String) (hpath : r.root_path = path) :
    db.find? (fun x => x.root_path == path) = some r := by
  induction db with
  | nil => exact absurd hr (List.not_mem_nil r)
  | cons x xs ih =>
    have hx := List.pairwise_cons.mp h
    rcases List.mem_cons.mp hr with heq | hmem
    · subst heq
      simp [List.find?_cons, hpath]
    · have hne : x.root_path ≠ path := by
        rw [← hpath]
        exact hx.1 r hmem
      have hbeq : (x.root_path == path) = false := beq_eq_false_iff_ne.mpr hne
      simp only [List.find?_cons, hbeq]
      exact ih hx.2 hmem

/-- C1: after any sequence of `add_or_update_project` calls, `root_path`
is unique across the persisted records — upserting two payloads with the
same `root_path` and different uuids leaves at most one record for that
path — and `get_project_by_path` answers any persisted path with the one
record carrying it. -/
theorem root_path_unique_after_upserts (ops : List (Payload × Nat × Nat))
    (path : String) :
    PathsUnique (upsertAll ops) ∧
    ((upsertAll ops).filter (fun r => r.root_path == path)).length ≤ 1 ∧
    (∀ r ∈ upsertAll ops, r.root_path = path →
      get_project_by_path (upsertAll ops) path = some (hydrate r)) := by
  have hu : PathsUnique (upsertAll ops) :=
    pathsUnique_foldl ops [] (List.Pairwise.nil)
  refine ⟨hu, count_path_le_one _ hu path, ?_⟩
  intro r hr hpath
  unfold get_project_by_path
  rw [find_by_path_of_pathsUnique _ hu r hr path hpath]
  rfl

/-- Witness for C1: two upserts with the same `root_path` and different
uuids leave at most one record for that path. -/
theorem root_path_unique_after_upserts_witness :
    ((upsertAll
      [({ uuid := "u1", name := some "a", root_path := some "/p" }, 0, 1),
       ({ uuid := "u2", name := some "b", root_path := some "/p" }, 2, 3)]).filter
        (fun r => r.root_path == "/p")).length ≤ 1 :=
  (root_path_unique_after_upserts
    [({ uuid := "u1", name := some "a", root_path := some "/p" }, 0, 1),
     ({ uuid := "u2", name := some "b", root_path := some "/p" }, 2, 3)] "/p").2.1

/-! ### Migration idempotence -/

theorem migrate_schema_fixed (s : SchemaState) :
    migrate_schema (migrate_schema s) = migrate_schema s := by
  cases hb : s.projectsTableLive with
  | false =>
    have h1 : migrate_schema s = s := by simp [migrate_schema, hb]
    rw [h1]
    exact h1
  | true =>
    by_cases hv : SCHEMA_VERSION ≤ s.version
    · have h1 : migrate_schema s = s := by simp [migrate_schema, hb, hv]
      rw [h1]
      exact h1
    · have hlive : (migrate_schema s).projectsTableLive = true := by
        simp [migrate_schema, hb, hv]
      have hver : (migrate_schema s).version = SCHEMA_VERSION := by
        simp [migrate_schema, hb, hv]
      conv_lhs => rw [migrate_schema]
      rw [hlive, hver]
      simp

/-- C3: running the schema migrator `N ≥ 1` times leaves exactly the
column set (indeed the whole schema state) of a single run; repeated runs
change nothing and — the migrator being a total function whose internal
SQLite errors are swallowed — raise nothing to the caller of `connect()`. -/
theorem migrate_schema_idempotent (s : SchemaState) (n : Nat) :
    (migrate_schema^[n + 1] s).cols = (migrate_schema s).cols ∧
    migrate_schema^[n + 1] s = migrate_schema s := by
  have hfull : ∀ m : Nat, migrate_schema^[m + 1] s = migrate_schema s := by
    intro m
    induction m with
    | zero => rfl
    | succ k ih =>
      rw [Function.iterate_succ_apply', ih, migrate_schema_fixed]
  exact ⟨by rw [hfull n], hfull n⟩

/-! ### Targeted mutators on a missing uuid -/

theorem map_guard_id (db : List Row) (u : String) (f : Row → Row)
    (habsent : ∀ r ∈ db, r.uuid ≠ u) :
    db.map (fun r => if r.uuid == u then f r else r) = db := by
  induction db with
  | nil => rfl
  | cons x xs ih =>
    have hx : (x.uuid == u) = false :=
      beq_eq_false_iff_ne.mpr (habsent x (List.mem_cons_self x xs))
    simp only [List.map_cons, hx, Bool.false_eq_true, if_false]
    rw [ih (fun r hr => habsent r (List.mem_cons_of_mem x hr))]

/-- C10: for a uuid with no record, `update_notes`, `delete_project` (soft
delete) and `record_project_open` each return `True` and leave the table
unchanged — their unconditional `UPDATE ... WHERE uuid = ?` matches zero
rows, raises nothing, and gives the caller no not-found signal. -/
theorem mutators_silent_on_missing_uuid (db : List Row) (u : String)
    (notes : String) (t1 t2 t3 : Nat)
    (habsent : ∀ r ∈ db, r.uuid ≠ u) :
    update_notes db u notes t1 = (db, true) ∧
    delete_project db u t2 = (db, true) ∧
    record_project_open db u t3 = (db, true) := by
  refine ⟨?_, ?_, ?_⟩
  · show (db.map _, true) = (db, true)
    rw [map_guard_id db u
      (fun r => { r with notes := some notes, last_updated := t1 }) habsent]
  · show (db.map _, true) = (db, true)
    rw [map_guard_id db u
      (fun r => { r with enabled := some 0, last_updated := t2 }) habsent]
  · show (db.map _, true) = (db, true)
    rw [map_guard_id db u
      (fun r => { r with last_opened := some t3,
                         open_count := r.open_count.map (· + 1),
                         last_updated := t3 }) habsent]

/-- A concrete persisted row. -/
def rowW : Row :=
  { uuid := "a", name := "n", root_path := "/n", date_added := 0,
    last_updated := 0, enabled := some 1, favorite := some 0,
    open_count := some 0 }

/-- Witness for C10 on a one-row table and an unknown uuid. -/
theorem mutators_silent_on_missing_uuid_witness :
    update_notes [rowW] "b" "hi" 1 = ([rowW], true) ∧
    delete_project [rowW] "b" 2 = ([rowW], true) ∧
    record_project_open [rowW] "b" 3 = ([rowW], true) :=
  mutators_silent_on_missing_uuid [rowW] "b" "hi" 1 2 3 (by decide)

/-! ### Search degradation under schema drift -/

/-- C8: on a table missing the optional `notes` column, `search_projects`
with a non-empty query raises nothing and returns exactly the enabled
records matching the LIKE disjunction over the text columns that do exist
(`name`, `root_path`, and `description` when present); and with
`favorites_only` and no `favorite` column it returns the empty list
rather than erroring. -/
theorem search_degrades_gracefully (cols : List String) (db : List Row)
    (q : String) (tg : List String)
    (hnotes : cols.contains "notes" = false) (hq : q ≠ "") :
    (∀ prj, prj ∈ search_projects cols db q [] false ↔
      ∃ r, r ∈ db ∧ prj = hydrate r ∧ r.enabled = some 1 ∧
        (likeContains (some r.name) q || likeContains (some r.root_path) q
          || (cols.contains "description" && likeContains r.description q))
          = true) ∧
    (cols.contains "favorite" = false →
      search_projects cols db q tg true = []) := by
  have hq' : (q == "") = false := beq_eq_false_iff_ne.mpr hq
  constructor
  · intro prj
    simp only [search_projects, hnotes, hq', Bool.false_and, Bool.not_false,
      Bool.and_false, Bool.false_eq_true, if_false, List.isEmpty_nil,
      Bool.true_or, List.filter_true, List.mem_map, sortByNameNoCase,
      mem_sortBy, List.mem_filter, Bool.not_false, Bool.true_and,
      Bool.and_true, Bool.or_false, Bool.and_eq_true, beq_iff_eq]
    constructor
    · rintro ⟨r, ⟨⟨hmem, hen, hlike⟩, rfl⟩⟩
      exact ⟨r, hmem, rfl, hen, hlike⟩
    · rintro ⟨r, hmem, rfl, hen, hlike⟩
      exact ⟨r, ⟨⟨hmem, hen, hlike⟩, rfl⟩⟩
  · intro hfav
    unfold search_projects
    rw [hfav]
    simp

/-- Witness for C8 on a concrete column set lacking `notes` and
`favorite`. -/
theorem search_degrades_gracefully_witness :
    search_projects ["uuid", "name", "root_path", "description"] [rowW]
      "x" [] true = [] :=
  (search_degrades_gracefully ["uuid", "name", "root_path", "description"]
    [rowW] "x" [] (by decide) (by decide)).2 (by decide)

/-! ### The whitelisted partial update -/

theorem applyUpdates_frame {β : Type} (get : Row → β)
    (hframe : ∀ r f v, get (applyFieldUpdate r f v) = get r) :
    ∀ (updates : List (String × Option String)) (r : Row),
      get (applyUpdates updates r) = get r := by
  intro updates
  induction updates with
  | nil => intro r; rfl
  | cons fv t ih =>
    intro r
    show get (applyUpdates t (applyFieldUpdate r fv.1 fv.2)) = get r
    rw [ih, hframe]

theorem applyUpdates_untouched (get : Row → Option String) (fname : String)
    (hframe : ∀ r f v, f ≠ fname → get (applyFieldUpdate r f v) = get r) :
    ∀ (updates : List (String × Option String)) (r : Row),
      fname ∉ updates.map Prod.fst →
      get (applyUpdates updates r) = get r := by
  intro updates
  induction updates with
  | nil => intro r _; rfl
  | cons fv t ih =>
    intro r hnot
    simp only [List.map_cons, List.mem_cons, not_or] at hnot
    show get (applyUpdates t (applyFieldUpdate r fv.1 fv.2)) = get r
    rw [ih _ hnot.2, hframe r fv.1 fv.2 (fun he => hnot.1 he.symm)]

theorem applyUpdates_sets (get : Row → Option String) (fname : String)
    (hframe : ∀ r f v, f ≠ fname → get (applyFieldUpdate r f v) = get r)
    (hset : ∀ r v, get (applyFieldUpdate r fname v) = v) :
    ∀ (updates : List (String × Option String)) (r : Row) (v : Option String),
      (updates.map Prod.fst).Nodup → (fname, v) ∈ updates →
      get (applyUpdates updates r) = v := by
  intro updates
  induction updates with
  | nil => intro r v _ hmem; exact absurd hmem (List.not_mem_nil _)
  | cons fv t ih =>
    intro r v hnd hmem
    simp only [List.map_cons, List.nodup_cons] at hnd
    rcases List.mem_cons.mp hmem with heq | hmem2
    · have hnotin : fname ∉ t.map Prod.fst := by
        rw [show fname = fv.1 from by rw [← heq]]
        exact hnd.1
      show get (applyUpdates t (applyFieldUpdate r fv.1 fv.2)) = v
      rw [applyUpdates_untouched get fname hframe t _ hnotin, ← heq]
      exact hset r v
    · show get (applyUpdates t (applyFieldUpdate r fv.1 fv.2)) = v
      exact ih _ v hnd.2 hmem2

theorem applyFieldUpdate_ai_frame (r : Row) (f : String) (v : Option String)
    (hne : f ≠ "ai_app_name") :
    (applyFieldUpdate r f v).ai_app_name = r.ai_app_name := by
  simp only [applyFieldUpdate, beq_eq_false_iff_ne.mpr hne, Bool.false_eq_true,
    if_false]
  split_ifs <;> rfl

theorem applyFieldUpdate_desc_frame (r : Row) (f : String) (v : Option String)
    (hne : f ≠ "description") :
    (applyFieldUpdate r f v).description = r.description := by
  simp only [applyFieldUpdate]
  split_ifs with h1 h2 h3 <;> first | rfl | (exact absurd (eq_of_beq h2) hne)

theorem applyFieldUpdate_tags_frame (r : Row) (f : String) (v : Option String)
    (hne : f ≠ "tags") :
    (applyFieldUpdate r f v).tags = r.tags := by
  simp only [applyFieldUpdate]
  split_ifs with h1 h2 h3 <;> first | rfl | (exact absurd (eq_of_beq h3) hne)

/-- C9: `update_project_fields` raises a not-found `DatabaseError` when
the uuid has no record (the table unchanged, as `stepOp` shows); returns
`False` and modifies nothing when the uuid exists but no supplied field is
in the whitelist `{ai_app_name, description, tags}`; and with at least one
whitelisted field it rewrites exactly those fields on the matching row
(serializing a list-valued `tags`), stamps `last_updated`, leaves every
other column and every other row alone, and returns `True`. -/
theorem update_fields_contract (db : List Row) (u : String)
    (fs : List (String × FieldVal)) (now : Nat) :
    (get_project_by_uuid db u = none →
      update_project_fields db u fs now =
        .error ("Project with UUID " ++ u ++ " not found") ∧
      stepOp db (.setFields u fs now) = db) ∧
    (get_project_by_uuid db u ≠ none →
      fs.filter (fun fv => allowed_fields.contains fv.1) = [] →
      update_project_fields db u fs now = .ok (db, false)) ∧
    ((fs.map Prod.fst).Nodup →
      fs.filter (fun fv => allowed_fields.contains fv.1) ≠ [] →
      get_project_by_uuid db u ≠ none →
      ∃ db', update_project_fields db u fs now = .ok (db', true) ∧
        (∀ r ∈ db, r.uuid ≠ u → r ∈ db') ∧
        (∀ r ∈ db, r.uuid = u → ∃ r' ∈ db',
          r'.uuid = r.uuid ∧ r'.name = r.name ∧ r'.root_path = r.root_path ∧
          r'.favorite = r.favorite ∧ r'.open_count = r.open_count ∧
          r'.date_added = r.date_added ∧ r'.notes = r.notes ∧
          r'.last_updated = now ∧
          (∀ v, ("ai_app_name", v) ∈ fs → r'.ai_app_name = serializeFieldVal v) ∧
          ("ai_app_name" ∉ fs.map Prod.fst → r'.ai_app_name = r.ai_app_name) ∧
          (∀ v, ("description", v) ∈ fs → r'.description = serializeFieldVal v) ∧
          ("description" ∉ fs.map Prod.fst → r'.description = r.description) ∧
          (∀ v, ("tags", v) ∈ fs → r'.tags = serializeFieldVal v) ∧
          ("tags" ∉ fs.map Prod.fst → r'.tags = r.tags))) := by
  refine ⟨?_, ?_, ?_⟩
  · intro hnone
    constructor
    · simp [update_project_fields, hnone]
    · simp [stepOp, update_project_fields, hnone]
  · intro hsome hemp
    obtain ⟨pr, hpr⟩ := Option.ne_none_iff_exists'.mp hsome
    simp only [update_project_fields, hpr, hemp, List.map_nil,
      List.isEmpty_nil, if_true]
  · intro hnd hne hsome
    obtain ⟨pr, hpr⟩ := Option.ne_none_iff_exists'.mp hsome
    set flt := fs.filter (fun fv => allowed_fields.contains fv.1) with hflt
    set updates := flt.map (fun fv => (fv.1, serializeFieldVal fv.2)) with hupd
    have hupdne : updates.isEmpty = false := by
      rw [hupd]
      cases hcl : flt with
      | nil => exact absurd hcl hne
      | cons a l => rfl
    have hresult : update_project_fields db u fs now =
        .ok (db.map (fun r =>
          if r.uuid == u then { applyUpdates updates r with last_updated := now }
          else r), true) := by
      simp only [update_project_fields, hpr, ← hflt, ← hupd, hupdne,
        Bool.false_eq_true, if_false]
    have hndu : (updates.map Prod.fst).Nodup := by
      have hsub : updates.map Prod.fst = flt.map Prod.fst := by
        simp [hupd, List.map_map, Function.comp]
      rw [hsub, hflt]
      exact hnd.sublist (List.Sublist.map Prod.fst (List.filter_sublist fs))
    have hmemof : ∀ (fname : String) (v : FieldVal),
        allowed_fields.contains fname = true → (fname, v) ∈ fs →
        (fname, serializeFieldVal v) ∈ updates := by
      intro fname v hal hmem
      rw [hupd]
      exact List.mem_map.mpr ⟨(fname, v),
        List.mem_filter.mpr ⟨hmem, hal⟩, rfl⟩
    have hnotof : ∀ fname : String, fname ∉ fs.map Prod.fst →
        fname ∉ updates.map Prod.fst := by
      intro fname hnot hmem
      apply hnot
      have hsub : updates.map Prod.fst = flt.map Prod.fst := by
        simp [hupd, List.map_map, Function.comp]
      rw [hsub, hflt] at hmem
      exact (List.Sublist.map Prod.fst (List.filter_sublist fs)).mem hmem
    refine ⟨_, hresult, ?_, ?_⟩
    · intro r hr hru
      refine List.mem_map.mpr ⟨r, hr, ?_⟩
      simp [beq_eq_false_iff_ne.mpr hru]
    · intro r hr hru
      refine ⟨{ applyUpdates updates r with last_updated := now },
        List.mem_map.mpr ⟨r, hr, by simp [hru]⟩,
        ?_, ?_, ?_, ?_, ?_, ?_, ?_, rfl, ?_, ?_, ?_, ?_, ?_, ?_⟩
      · exact applyUpdates_frame Row.uuid
          (fun r f v => by unfold applyFieldUpdate; split_ifs <;> rfl) updates r
      · exact applyUpdates_frame Row.name
          (fun r f v => by unfold applyFieldUpdate; split_ifs <;> rfl) updates r
      · exact applyUpdates_frame Row.root_path
          (fun r f v => by unfold applyFieldUpdate; split_ifs <;> rfl) updates r
      · exact applyUpdates_frame Row.favorite
          (fun r f v => by unfold applyFieldUpdate; split_ifs <;> rfl) updates r
      · exact applyUpdates_frame Row.open_count
          (fun r f v => by unfold applyFieldUpdate; split_ifs <;> rfl) updates r
      · exact applyUpdates_frame Row.date_added
          (fun r f v => by unfold applyFieldUpdate; split_ifs <;> rfl) updates r
      · exact applyUpdates_frame Row.notes
          (fun r f v => by unfold applyFieldUpdate; split_ifs <;> rfl) updates r
      · intro v hv
        exact applyUpdates_sets Row.ai_app_name "ai_app_name"
          applyFieldUpdate_ai_frame (fun r v => by rfl) updates r
          (serializeFieldVal v) hndu (hmemof _ v rfl hv)
      · intro hnot
        exact applyUpdates_untouched Row.ai_app_name "ai_app_name"
          applyFieldUpdate_ai_frame updates r (hnotof _ hnot)
      · intro v hv
        exact applyUpdates_sets Row.description "description"
          applyFieldUpdate_desc_frame (fun r v => by rfl) updates r
          (serializeFieldVal v) hndu (hmemof _ v rfl hv)
      · intro hnot
        exact applyUpdates_untouched Row.description "description"
          applyFieldUpdate_desc_frame updates r (hnotof _ hnot)
      · intro v hv
        exact applyUpdates_sets Row.tags "tags"
          applyFieldUpdate_tags_frame (fun r v => by rfl) updates r
          (serializeFieldVal v) hndu (hmemof _ v rfl hv)
      · intro hnot
        exact applyUpdates_untouched Row.tags "tags"
          applyFieldUpdate_tags_frame updates r (hnotof _ hnot)

/-- Witness for C9: not-found error on an empty store. -/
theorem update_fields_contract_witness :
    update_project_fields [] "u1" [] 0 =
      .error ("Project with UUID " ++ "u1" ++ " not found") ∧
    stepOp [] (.setFields "u1" [] 0) = [] :=
  (update_fields_contract [] "u1" [] 0).1 rfl

/-! ### Null-freedom of the boolean columns -/

/-- The boolean columns of one row that the model tracks as an invariant:
`favorite` and `archived` are stored non-null. -/
def RowFlagsOk (r : Row) : Prop := r.favorite ≠ none ∧ r.archived ≠ none

/-- Every persisted row has non-null `favorite` and `archived`. -/
def FlagsOk (db : List Row) : Prop := ∀ r ∈ db, RowFlagsOk r

/-- A call whose payload does not carry an explicit `favorite: None`
(a key that is present with a null value); omission of the key is fine. -/
def OpNoNullFav : Op → Prop
  | .upsert p _ _ => p.favorite ≠ some none
  | _ => True

theorem FlagsOk_map (db : List Row) (f : Row → Row)
    (hf : ∀ r, RowFlagsOk r → RowFlagsOk (f r)) (h : FlagsOk db) :
    FlagsOk (db.map f) := by
  intro r hr
  obtain ⟨r0, hr0, rfl⟩ := List.mem_map.mp hr
  exact hf r0 (h r0 hr0)

theorem update_project_fields_ok (db : List Row) (u : String)
    (fs : List (String × FieldVal)) (now : Nat) (db2 : List Row) (b : Bool)
    (hres : update_project_fields db u fs now = .ok (db2, b)) :
    db2 = db ∨ db2 = db.map (fun r =>
      if r.uuid == u then
        { applyUpdates ((fs.filter (fun fv => allowed_fields.contains fv.1)).map
            (fun fv => (fv.1, serializeFieldVal fv.2))) r with
          last_updated := now }
      else r) := by
  unfold update_project_fields at hres
  cases hget : get_project_by_uuid db u with
  | none =>
    rw [hget] at hres
    simp at hres
  | some pr =>
    rw [hget] at hres
    simp only [] at hres
    split at hres
    · left
      simp only [Except.ok.injEq, Prod.mk.injEq] at hres
      exact hres.1.symm
    · right
      simp only [Except.ok.injEq, Prod.mk.injEq] at hres
      exact hres.1.symm

theorem FlagsOk_step (db : List Row) (op : Op) (h : FlagsOk db)
    (hop : OpNoNullFav op) : FlagsOk (stepOp db op) := by
  cases op with
  | upsert p nowAdd nowUpd =>
    show FlagsOk (applyUpsert db p nowAdd nowUpd)
    cases hn : p.name with
    | none =>
      simp only [applyUpsert, add_or_update_project, hn]
      exact h
    | some nm =>
      cases hr : p.root_path with
      | none =>
        simp only [applyUpsert, add_or_update_project, hn, hr]
        exact h
      | some rp =>
        rw [applyUpsert_eq db p nowAdd nowUpd nm rp hn hr]
        intro r hrmem
        rcases List.mem_append.mp hrmem with hleft | hright
        · exact h r (List.mem_of_mem_filter hleft)
        · have : r = upsertRow db p nm rp nowAdd nowUpd := by
            simpa using hright
          subst this
          constructor
          · show (match p.favorite with
              | some v => v
              | none =>
                match get_project_by_uuid db p.uuid with
                | some e => e.favorite
                | none => some 0) ≠ none
            cases hf : p.favorite with
            | some v =>
              intro he
              subst he
              exact hop (by rw [hf])
            | none =>
              cases hg : get_project_by_uuid db p.uuid with
              | none => simp
              | some e =>
                simp only []
                obtain ⟨r0, hfind⟩ : ∃ r0,
                    db.find? (fun x => x.uuid == p.uuid) = some r0 := by
                  unfold get_project_by_uuid at hg
                  cases hfd : db.find? (fun x => x.uuid == p.uuid) with
                  | none => rw [hfd] at hg; simp at hg
                  | some r0 => exact ⟨r0, rfl⟩
                have hr0mem := List.mem_of_find?_eq_some hfind
                have he : e = hydrate r0 := by
                  unfold get_project_by_uuid at hg
                  rw [hfind] at hg
                  simpa using hg.symm
                rw [he]
                exact (h r0 hr0mem).1
          · show (some 0 : Option Int) ≠ none
            simp
  | toggleFav u now =>
    show FlagsOk (toggle_favorite db u now).1
    unfold toggle_favorite
    cases get_project_by_uuid db u with
    | none => exact h
    | some project =>
      exact FlagsOk_map db _ (fun r hr => by
        split
        · exact ⟨by simp, hr.2⟩
        · exact hr) h
  | setNotes u s now =>
    exact FlagsOk_map db _ (fun r hr => by
      split
      · exact ⟨hr.1, hr.2⟩
      · exact hr) h
  | setFields u fs now =>
    cases hres : update_project_fields db u fs now with
    | error e =>
      simp only [stepOp, hres]
      exact h
    | ok res =>
      obtain ⟨db2, b⟩ := res
      have hshape := update_project_fields_ok db u fs now db2 b hres
      simp only [stepOp, hres]
      rcases hshape with rfl | rfl
      · exact h
      · exact FlagsOk_map db _ (fun r hr => by
          split
          · constructor
            · show (applyUpdates _ r).favorite ≠ none
              rw [applyUpdates_frame Row.favorite
                (fun r f v => by unfold applyFieldUpdate; split_ifs <;> rfl)]
              exact hr.1
            · show (applyUpdates _ r).archived ≠ none
              rw [applyUpdates_frame Row.archived
                (fun r f v => by unfold applyFieldUpdate; split_ifs <;> rfl)]
              exact hr.2
          · exact hr) h
  | reopen u now =>
    exact FlagsOk_map db _ (fun r hr => by
      split
      · exact ⟨hr.1, hr.2⟩
      · exact hr) h
  | softDelete u now =>
    exact FlagsOk_map db _ (fun r hr => by
      split
      · exact ⟨hr.1, hr.2⟩
      · exact hr) h
  | hardDelete u =>
    intro r hr
    exact h r (List.mem_of_mem_filter hr)
  | doArchive u path size now =>
    exact FlagsOk_map db _ (fun r hr => by
      split
      · exact ⟨hr.1, by simp⟩
      · exact hr) h

/-- C5 counterexample: an upsert whose payload omits the optional
`enabled` key persists a record whose `enabled` column is SQL NULL (the
generated INSERT lists the column explicitly and binds `None`), so
`enabled` is not a non-null boolean on every retrievable record. -/
theorem enabled_null_after_plain_upsert :
    (get_project_by_uuid (runOps []
        [.upsert { uuid := "u1", name := some "n", root_path := some "/p" } 0 1])
      "u1").map Project.enabled = some none := rfl

/-- C5 (amended): after any sequence of public operations from an empty
store in which no upsert payload carries an explicit null `favorite`
value, every persisted record has non-null `favorite` and `archived`
(0/1); `enabled`, however, is stored NULL whenever an upsert payload
omits it. -/
theorem favorite_archived_nonnull (ops : List Op)
    (hops : ∀ op ∈ ops, OpNoNullFav op) :
    ∀ r ∈ runOps [] ops, r.favorite ≠ none ∧ r.archived ≠ none := by
  have main : ∀ (ops : List Op) (db : List Row), FlagsOk db →
      (∀ op ∈ ops, OpNoNullFav op) → FlagsOk (ops.foldl stepOp db) := by
    intro ops
    induction ops with
    | nil => intro db h _; exact h
    | cons op t ih =>
      intro db h hops
      exact ih _ (FlagsOk_step db op h (hops op (List.mem_cons_self op t)))
        (fun o ho => hops o (List.mem_cons_of_mem op ho))
  exact main ops [] (fun r hr => absurd hr (List.not_mem_nil r)) hops

/-- A concrete operation sequence: one plain upsert, one favorite
toggle. -/
def opsW : List Op :=
  [.upsert { uuid := "u1", name := some "n", root_path := some "/p" } 0 1,
   .toggleFav "u1" 2]

/-- Witness for the amended C5 on a concrete operation sequence. -/
theorem favorite_archived_nonnull_witness :
    ∃ r, runOps [] opsW = [r] ∧ r.favorite ≠ none ∧ r.archived ≠ none := by
  have h := favorite_archived_nonnull opsW (by
    intro op hop
    simp only [opsW, List.mem_cons, List.not_mem_nil, or_false] at hop
    rcases hop with rfl | rfl <;> simp [OpNoNullFav])
  obtain ⟨r, hr⟩ : ∃ r, runOps [] opsW = [r] := ⟨_, rfl⟩
  have hmem : r ∈ runOps [] opsW := by
    rw [hr]
    exact List.mem_singleton.mpr rfl
  exact ⟨r, hr, (h r hmem).1, (h r hmem).2⟩

/-! ### Tag materialization on the read paths -/

/-- Whether a hydrated tags value is an actual list. -/
def TagsVal.isList : TagsVal → Bool
  | .list _ => true
  | _ => false


/-- C6 counterexample: a record stored through an upsert without tags is
returned by `get_project_by_uuid` with its `tags` entry still the SQL
NULL (`None`), not materialized as a list — the readers only decode a
truthy stored value. -/
theorem tags_null_not_materialized :
    ((get_project_by_uuid (runOps []
        [.upsert { uuid := "u1", name := some "n", root_path := some "/p" } 0 1])
      "u1").map (fun prj => prj.tags) = some TagsVal.null ∧
     (get_project_by_uuid (runOps []
        [.upsert { uuid := "u1", name := some "n", root_path := some "/p" } 0 1])
      "u1").map (fun prj => prj.tags.isList) = some false) ∧
    ((get_project_by_uuid (runOps []
        [.upsert { uuid := "u2", name := some "n", root_path := some "/q",
                   tags := TagsIn.str "123" } 0 1])
      "u2").map (fun prj => prj.tags) = some (TagsVal.jval (Json.int 123)) ∧
     (get_project_by_uuid (runOps []
        [.upsert { uuid := "u2", name := some "n", root_path := some "/q",
                   tags := TagsIn.str "123" } 0 1])
      "u2").map (fun prj => prj.tags.isList) = some false) :=
  ⟨⟨rfl, rfl⟩, ⟨rfl, rfl⟩⟩

/-- C6 (amended): every record any of the five readers returns is the
hydration of a stored row, and hydration: passes a stored NULL or empty
string through unchanged; materializes the serializer's output for a
string list as exactly that list; yields `[]` when a stored non-empty
string is not decodable JSON (the `JSONDecodeError` branch); and yields
the decoded — not necessarily list — value when the stored string is
other valid JSON (a stored `"123"` comes back as the integer 123). -/
theorem tags_hydration_shape :
    (hydrateTags none = TagsVal.null ∧ hydrateTags (some "") = TagsVal.str "") ∧
    (∀ l : List String, (∀ s ∈ l, ∀ c ∈ s.data, PlainChar c) →
      hydrateTags (some (json_dumps_strlist l)) = TagsVal.list l) ∧
    (hydrateTags (some "not json") = TagsVal.list []) ∧
    (hydrateTags (some "123") = TagsVal.jval (Json.int 123)) ∧
    (∀ (db : List Row) (u : String) (prj : Project),
      get_project_by_uuid db u = some prj → ∃ r ∈ db, prj = hydrate r) ∧
    (∀ (db : List Row) (pth : String) (prj : Project),
      get_project_by_path db pth = some prj → ∃ r ∈ db, prj = hydrate r) ∧
    (∀ (db : List Row) (b : Bool) (prj : Project),
      prj ∈ get_all_projects db b → ∃ r ∈ db, prj = hydrate r) ∧
    (∀ (cols : List String) (db : List Row) (q : String) (tg : List String)
      (fo : Bool) (prj : Project),
      prj ∈ search_projects cols db q tg fo → ∃ r ∈ db, prj = hydrate r) ∧
    (∀ (db : List Row) (prj : Project),
      prj ∈ get_archived_projects db → ∃ r ∈ db, prj = hydrate r) := by
  refine ⟨⟨rfl, rfl⟩, hydrateTags_dumps, rfl, rfl, ?_, ?_, ?_, ?_, ?_⟩
  · intro db u prj h
    obtain ⟨r, hfind, rfl⟩ := Option.map_eq_some'.mp h
    exact ⟨r, List.mem_of_find?_eq_some hfind, rfl⟩
  · intro db pth prj h
    obtain ⟨r, hfind, rfl⟩ := Option.map_eq_some'.mp h
    exact ⟨r, List.mem_of_find?_eq_some hfind, rfl⟩
  · intro db b prj h
    simp only [get_all_projects] at h
    obtain ⟨r, hr, rfl⟩ := List.mem_map.mp h
    have hmem := (mem_sortBy _ r _).mp hr
    refine ⟨r, ?_, rfl⟩
    split at hmem
    · exact List.mem_of_mem_filter hmem
    · exact hmem
  · intro cols db q tg fo prj h
    simp only [search_projects] at h
    cases hfc : (fo && !(cols.contains "favorite")) with
    | true =>
      rw [hfc, if_pos rfl] at h
      exact absurd h (List.not_mem_nil prj)
    | false =>
      rw [hfc, if_neg (by simp)] at h
      obtain ⟨r, hr, rfl⟩ := List.mem_map.mp (List.mem_filter.mp h).1
      exact ⟨r, List.mem_of_mem_filter ((mem_sortBy _ r _).mp hr), rfl⟩
  · intro db prj h
    simp only [get_archived_projects] at h
    obtain ⟨r, hr, rfl⟩ := List.mem_map.mp h
    exact ⟨r, List.mem_of_mem_filter ((mem_sortBy _ r _).mp hr), rfl⟩

/-- Witness for the amended C6 at a concrete store. -/
theorem tags_hydration_shape_witness :
    ∃ r ∈ [rowW], hydrate rowW = hydrate r :=
  tags_hydration_shape.2.2.2.2.1 [rowW] "a" (hydrate rowW) rfl

end ProjectCatalog
